import Mathlib

/-!
Shallow embedding of the INIT package manager (`src/initpkg.py`).

The mutable world of the program is modelled by the structure `St`:
the in-memory configuration (`repository`, `installed_packages`, mirroring
`self.config`), the managed packages directory (`fs`, one entry per package
directory, each a list of `(filename, content)` pairs), the persisted
configuration file `packages.json` (`config_file`, what `save_config` last
wrote, `none` when absent) and the index cache file `cache/index.json`
(`cache_file`: `none` = file absent, `some none` = file present but
`json.load` raises, `some (some idx)` = file present and parses to `idx`).

The network is an oracle passed to each operation: `net : Option PkgIndex`
is the outcome of downloading `{GITHUB_REPO}/index.json` (`none` = the
request or `json.loads` raises), and `fm : String → Option String` maps a
package name to the outcome of downloading
`{GITHUB_REPO}/packages/{name}/main.init`.

Python dictionaries are modelled as association lists with first-occurrence
lookup (`getVal`), in-place update (`updAssoc`) and key deletion
(`delAssoc`).  Terminal output (banners, progress animations, warnings) is
presentation and is not part of the state; where an operation additionally
reports a warning, the model returns a `Bool` flag.

The recursive dependency walk of `_install_single` is made total with a
`fuel` parameter: `none` is the out-of-fuel marker and every theorem about
the walk either holds for all fuel or supplies enough fuel explicitly.
-/

namespace Initpkg

/-- `GITHUB_REPO` constant of `initpkg.py` (line 24). -/
def GITHUB_REPO : String :=
  "https://raw.githubusercontent.com/gopu-inc/initlang-packages/main"

/-- `PACKAGES_DIR = INITLANG_HOME / "packages"` (line 19); the user's home
directory is abstracted as `~`. -/
def PACKAGES_DIR : String := "~/.initlang/packages"

/-- `str(PACKAGES_DIR / package_name)`. -/
def pkg_path (name : String) : String := PACKAGES_DIR ++ "/" ++ name

/-- One entry of the remote package index (`index.json`): the fields of a
`package_info` dictionary that `initpkg.py` reads.  Absent optional fields
are `none` (Python `dict.get` with a default). -/
structure PkgInfo where
  version : Option String
  description : Option String
  author : Option String
  dependencies : List String
  deriving DecidableEq

/-- The value stored in `self.config["installed_packages"][name]`
(lines 168-172 and 275-279). -/
structure InstalledEntry where
  version : String
  path : String
  source : String
  deriving DecidableEq

/-- `self.config["installed_packages"]`, a Python dict. -/
abbrev Installed := List (String × InstalledEntry)

/-- Contents of one package directory: filename to file content. -/
abbrev Dir := List (String × String)

/-- The managed packages directory: package name to directory contents. -/
abbrev FS := List (String × Dir)

/-- The package index: package name to its `PkgInfo` record. -/
abbrev PkgIndex := List (String × PkgInfo)

/-- Dictionary lookup `m[k]` on an association list (first occurrence). -/
def getVal {β : Type} : List (String × β) → String → Option β
  | [], _ => none
  | (k', v) :: rest, k => if k' = k then some v else getVal rest k

/-- Python `k in m`. -/
def hasKey {β : Type} (m : List (String × β)) (k : String) : Bool :=
  (getVal m k).isSome

/-- Dictionary update `m[k] = v`: replaces the first binding of `k` in
place, appends when `k` is absent. -/
def updAssoc {β : Type} : List (String × β) → String → β → List (String × β)
  | [], k, v => [(k, v)]
  | (k', v') :: rest, k, v =>
      if k' = k then (k, v) :: rest else (k', v') :: updAssoc rest k v

/-- Dictionary deletion `del m[k]` (dict keys are unique, so removing every
binding of `k` models it). -/
def delAssoc {β : Type} (m : List (String × β)) (k : String) :
    List (String × β) :=
  m.filter (fun p => p.1 != k)

/-- The mutable world of a `PackageManager` run: in-memory config,
packages directory, persisted config file, index cache file. -/
structure St where
  repository : String
  installed_packages : Installed
  fs : FS
  config_file : Option (String × Installed)
  cache_file : Option (Option PkgIndex)
  deriving DecidableEq

/-- `save_config` (lines 96-99): writes the whole in-memory config to
`packages.json`. -/
def save_config (st : St) : St :=
  { st with config_file := some (st.repository, st.installed_packages) }

/-- Outcome of reading `CONFIG_FILE` at startup: absent, present but
`json.load` raises, or parsed into its recognised keys (each possibly
missing from the stored object). -/
inductive StateFile where
  | absent
  | unparsable
  | parsed (repository : Option String) (installed_packages : Option Installed)
  deriving DecidableEq

/-- `load_config` (lines 83-94): starts from the built-in default config
and, when the file is present and parses, `dict.update`s the default with
the stored keys; a parse failure is swallowed (`except: pass`), leaving
the default.  Returns the resulting `(repository, installed_packages)`
pair; the function is total, so no error ever reaches the caller. -/
def load_config : StateFile → String × Installed
  | StateFile.absent => (GITHUB_REPO, [])
  | StateFile.unparsable => (GITHUB_REPO, [])
  | StateFile.parsed r i => (r.getD GITHUB_REPO, i.getD [])

/-- The `try` block of `fetch_package_index` (lines 105-123): if the cache
file exists, return `json.load` of it (raising when it does not parse);
otherwise download the index, write it to the cache file and return it
(raising when the download fails).  `Except.error` is a raised exception. -/
def fetch_index_body (net : Option PkgIndex) (st : St) :
    Except Unit (PkgIndex × St) :=
  match st.cache_file with
  | some (some idx) => Except.ok (idx, st)
  | some none => Except.error ()
  | none =>
      match net with
      | some data => Except.ok (data, { st with cache_file := some (some data) })
      | none => Except.error ()

/-- `fetch_package_index` (lines 101-128): runs the `try` block; any
exception is caught, a warning is printed (the returned `Bool`) and the
empty index is returned with the state as it was before the attempt. -/
def fetch_package_index (net : Option PkgIndex) (st : St) :
    PkgIndex × St × Bool :=
  match fetch_index_body net st with
  | Except.ok (idx, st') => (idx, st', false)
  | Except.error () => ([], st, true)

/-- The JSON text that `download_package` writes to `package.json`
(lines 159-165); stands for the `json.dump` output of the metadata dict. -/
def package_json_content (name : String) (info : PkgInfo) : String :=
  "\x7b\"name\": \"" ++ name ++
  "\", \"version\": \"" ++ info.version.getD "1.0.0" ++
  "\", \"description\": \"" ++ info.description.getD "" ++
  "\", \"author\": \"" ++ info.author.getD "gopu-inc" ++ "\"\x7d"

/-- The `InstalledEntry` recorded by `download_package` (lines 168-172). -/
def github_entry (name : String) (info : PkgInfo) : InstalledEntry :=
  { version := info.version.getD "1.0.0", path := pkg_path name,
    source := "github" }

/-- `download_package` (lines 130-180).  Step by step, as the code does:
`package_dir.mkdir(exist_ok=True)` creates the package directory when it
is absent and keeps it (contents included) when present; the download of
`main.init` either fails — caught by the inner `except`, `False` is
returned, the created directory stays behind — or succeeds, in which case
`main.init` and `package.json` are written into the directory (other
pre-existing files are untouched), the entry is recorded in
`installed_packages` and `save_config` persists the config before `True`
is returned. -/
def download_package (fm : String → Option String) (name : String)
    (info : PkgInfo) (st : St) : Bool × St :=
  let fs1 := if hasKey st.fs name then st.fs else updAssoc st.fs name []
  match fm name with
  | none => (false, { st with fs := fs1 })
  | some content =>
      let dir0 := (getVal fs1 name).getD []
      let dir1 := updAssoc dir0 "main.init" content
      let dir2 := updAssoc dir1 "package.json" (package_json_content name info)
      let st1 := { st with
        fs := updAssoc fs1 name dir2,
        installed_packages :=
          updAssoc st.installed_packages name (github_entry name info) }
      (true, save_config st1)

mutual

/-- `_install_single` (lines 197-219): stop if the name is already
installed; stop if it is absent from the index (the code also prints the
available names, line 205); otherwise `download_package`, and on success
walk the declared dependencies in order.  `fuel` makes the recursion
structural; `none` means the fuel ran out. -/
def install_single (fm : String → Option String) (index : PkgIndex) :
    Nat → String → St → Option St
  | 0, _, _ => none
  | fuel + 1, name, st =>
      if hasKey st.installed_packages name then some st
      else
        match getVal index name with
        | none => some st
        | some info =>
            match download_package fm name info st with
            | (false, st') => some st'
            | (true, st') => install_deps fm index fuel info.dependencies st'

/-- The dependency loop of `_install_single` (lines 215-217): for each
declared dependency in order, recurse when it is not already installed.
A failed dependency does not stop the loop (the recursive call returns
normally). -/
def install_deps (fm : String → Option String) (index : PkgIndex) :
    Nat → List String → St → Option St
  | _, [], st => some st
  | 0, _ :: _, _ => none
  | fuel + 1, dep :: rest, st =>
      if hasKey st.installed_packages dep then
        install_deps fm index fuel rest st
      else
        match install_single fm index fuel dep st with
        | none => none
        | some st' => install_deps fm index fuel rest st'

end

/-- The `for` loop of `install` (lines 193-195): each requested name is
handed to `_install_single` in turn. -/
def install_loop (fm : String → Option String) (index : PkgIndex)
    (fuel : Nat) : List String → St → Option St
  | [], st => some st
  | name :: rest, st =>
      match install_single fm index fuel name st with
      | none => none
      | some st' => install_loop fm index fuel rest st'

/-- `install` (lines 182-195): fetch the index; when it is empty
(`if not index`) report and return without touching any package;
otherwise run the per-name loop on the fetched index. -/
def install (fm : String → Option String) (net : Option PkgIndex)
    (fuel : Nat) (names : List String) (st : St) : Option St :=
  let r := fetch_package_index net st
  if r.1.isEmpty then some r.2.1
  else install_loop fm r.1 fuel names r.2.1

/-- `install_local` (lines 254-282): given the source directory (its
basename and contents), stop when it has no `main.init`; otherwise replace
the target directory wholesale (`rmtree` + `copytree`), record a `local`
entry with the fixed version `"1.0.0"` and save the config. -/
def install_local (source_name : String) (files : Dir) (st : St) : St :=
  if hasKey files "main.init" = false then st
  else
    save_config { st with
      fs := updAssoc st.fs source_name files,
      installed_packages := updAssoc st.installed_packages source_name
        { version := "1.0.0", path := pkg_path source_name,
          source := "local" } }

/-- `uninstall` (lines 333-350): an unknown name is a reported no-op;
otherwise remove the package directory when present, delete the entry and
save the config. -/
def uninstall (name : String) (st : St) : St :=
  if hasKey st.installed_packages name = false then st
  else
    save_config { st with
      fs := delAssoc st.fs name,
      installed_packages := delAssoc st.installed_packages name }

/-! Concrete instances used by witnesses and counterexamples. -/

/-- An index entry with no dependencies. -/
def infoNone : PkgInfo :=
  { version := some "1.0.0", description := none, author := none,
    dependencies := [] }

/-- An index entry declaring the single dependency `B`. -/
def infoDepB : PkgInfo :=
  { version := some "1.0.0", description := none, author := none,
    dependencies := ["B"] }

/-- The state of a fresh installation: nothing installed, no files. -/
def st_empty : St :=
  { repository := GITHUB_REPO, installed_packages := [], fs := [],
    config_file := none, cache_file := none }

/-- A concrete installed entry for package `A`. -/
def entry0 : InstalledEntry :=
  { version := "1.0.0", path := pkg_path "A", source := "github" }

/-- A state in which package `A` is installed (entry and directory). -/
def st_oneA : St :=
  { repository := GITHUB_REPO, installed_packages := [("A", entry0)],
    fs := [("A", [("main.init", "c")])], config_file := none,
    cache_file := none }

/-- A state whose packages directory holds a stale `A` directory with a
leftover file, while `A` is not recorded as installed. -/
def st_stale : St :=
  { repository := GITHUB_REPO, installed_packages := [],
    fs := [("A", [("stale.txt", "old")])], config_file := none,
    cache_file := none }

/-- An index where `A` depends on `B` and `B` on nothing. -/
def idxAB : PkgIndex := [("A", infoDepB), ("B", infoNone)]

/-- An index advertising the two independent packages `X` and `Y`. -/
def idxXY : PkgIndex := [("X", infoNone), ("Y", infoNone)]

/-- The index stored in the cache file of `st_cached`. -/
def idx_cached : PkgIndex := [("cachedpkg", infoNone)]

/-- A different index served by the network. -/
def idx_remote : PkgIndex := [("remotepkg", infoNone)]

/-- A state whose cache file is present and parses to `idx_cached`. -/
def st_cached : St :=
  { repository := GITHUB_REPO, installed_packages := [], fs := [],
    config_file := none, cache_file := some (some idx_cached) }

/-- An artifact fetcher for which every download succeeds. -/
def fm_ok : String → Option String := fun _ => some "content"

/-- An artifact fetcher for which every download fails. -/
def fm_fail : String → Option String := fun _ => none

/-- An artifact fetcher failing exactly on package `X`. -/
def fm_failX : String → Option String :=
  fun n => if n = "X" then none else some "content"

/-! Association-list lemmas: Python dictionary laws. -/

theorem getVal_updAssoc_self {β : Type} (m : List (String × β)) (k : String)
    (v : β) : getVal (updAssoc m k v) k = some v := by
  induction m with
  | nil => simp [updAssoc, getVal]
  | cons p rest ih =>
      obtain ⟨k', v'⟩ := p
      by_cases h : k' = k
      · simp [updAssoc, h, getVal]
      · simp [updAssoc, h, getVal, ih]

theorem getVal_updAssoc_ne {β : Type} (m : List (String × β)) (k k' : String)
    (v : β) (h : k' ≠ k) : getVal (updAssoc m k v) k' = getVal m k' := by
  induction m with
  | nil => simp [updAssoc, getVal, Ne.symm h]
  | cons p rest ih =>
      obtain ⟨k'', v''⟩ := p
      by_cases hk : k'' = k
      · subst hk
        simp [updAssoc, getVal, Ne.symm h]
      · simp only [updAssoc, hk, if_false, getVal]
        by_cases hk' : k'' = k'
        · simp [hk']
        · simp [hk', ih]

theorem updAssoc_updAssoc {β : Type} (m : List (String × β)) (k : String)
    (v w : β) : updAssoc (updAssoc m k v) k w = updAssoc m k w := by
  induction m with
  | nil => simp [updAssoc]
  | cons p rest ih =>
      obtain ⟨k', v'⟩ := p
      by_cases h : k' = k
      · simp [updAssoc, h]
      · simp [updAssoc, h, ih]

theorem getVal_delAssoc_self {β : Type} (m : List (String × β)) (k : String) :
    getVal (delAssoc m k) k = none := by
  induction m with
  | nil => rfl
  | cons p rest ih =>
      obtain ⟨k', v'⟩ := p
      by_cases h : k' = k
      · subst h
        simpa [delAssoc, List.filter_cons] using ih
      · have hb : (k' != k) = true := bne_iff_ne.mpr h
        simpa [delAssoc, List.filter_cons, hb, getVal, h] using ih

theorem getVal_delAssoc_ne {β : Type} (m : List (String × β)) (k k' : String)
    (h : k' ≠ k) : getVal (delAssoc m k) k' = getVal m k' := by
  induction m with
  | nil => rfl
  | cons p rest ih =>
      obtain ⟨k'', v''⟩ := p
      by_cases hk : k'' = k
      · subst hk
        simpa [delAssoc, List.filter_cons, getVal, Ne.symm h] using ih
      · have hb : (k'' != k) = true := bne_iff_ne.mpr hk
        by_cases hk' : k'' = k'
        · simp [delAssoc, List.filter_cons, getVal, hb, hk', h]
        · simpa [delAssoc, List.filter_cons, getVal, hb, hk'] using ih

theorem hasKey_updAssoc_self {β : Type} (m : List (String × β)) (k : String)
    (v : β) : hasKey (updAssoc m k v) k = true := by
  simp [hasKey, getVal_updAssoc_self]

theorem hasKey_delAssoc_self {β : Type} (m : List (String × β)) (k : String) :
    hasKey (delAssoc m k) k = false := by
  simp [hasKey, getVal_delAssoc_self]

/-! Behaviour of `download_package` on each outcome of the artifact fetch. -/

theorem download_package_fail (fm : String → Option String) (name : String)
    (info : PkgInfo) (st : St) (h : fm name = none) :
    download_package fm name info st =
      (false,
        { st with fs := if hasKey st.fs name then st.fs
                        else updAssoc st.fs name [] }) := by
  simp only [download_package, h]

theorem download_package_success (fm : String → Option String) (name : String)
    (info : PkgInfo) (st : St) (content : String)
    (h : fm name = some content) :
    download_package fm name info st =
      (true, save_config { st with
        fs := updAssoc st.fs name
          (updAssoc (updAssoc ((getVal st.fs name).getD []) "main.init" content)
            "package.json" (package_json_content name info)),
        installed_packages :=
          updAssoc st.installed_packages name (github_entry name info) }) := by
  simp only [download_package, h]
  cases hgv : getVal st.fs name with
  | none => simp [hasKey, hgv, getVal_updAssoc_self, updAssoc_updAssoc]
  | some d => simp [hasKey, hgv]

theorem download_success_fields (fm : String → Option String) (name : String)
    (info : PkgInfo) (st : St) (content : String)
    (h : fm name = some content) :
    (download_package fm name info st).2.installed_packages =
        updAssoc st.installed_packages name (github_entry name info) ∧
    (download_package fm name info st).2.repository = st.repository ∧
    (download_package fm name info st).2.config_file =
        some (st.repository,
          updAssoc st.installed_packages name (github_entry name info)) := by
  rw [download_package_success fm name info st content h]
  exact ⟨rfl, rfl, rfl⟩

/-! `fetch_package_index` never changes the installed set or the packages
directory, only (possibly) the cache file. -/

theorem fetch_package_index_fields (net : Option PkgIndex) (st : St) :
    (fetch_package_index net st).2.1.installed_packages =
        st.installed_packages ∧
    (fetch_package_index net st).2.1.fs = st.fs ∧
    (fetch_package_index net st).2.1.repository = st.repository := by
  rcases hcf : st.cache_file with _ | (_ | idx)
  · rcases hnet : net with _ | data
    · simp [fetch_package_index, fetch_index_body, hcf, hnet]
    · simp [fetch_package_index, fetch_index_body, hcf, hnet]
  · simp [fetch_package_index, fetch_index_body, hcf]
  · simp [fetch_package_index, fetch_index_body, hcf]

/-! Single unfolding steps of `_install_single` once the head checks are
decided, used to drive the dependency-closure proof. -/

theorem install_single_success_step (fm : String → Option String)
    (index : PkgIndex) (fuel : Nat) (name : String) (info : PkgInfo) (st : St)
    (content : String)
    (hni : hasKey st.installed_packages name = false)
    (hidx : getVal index name = some info)
    (hfm : fm name = some content) :
    install_single fm index (fuel + 1) name st =
      install_deps fm index fuel info.dependencies
        (download_package fm name info st).2 := by
  have hpair : download_package fm name info st =
      (true, (download_package fm name info st).2) := by
    rw [download_package_success fm name info st content hfm]
  simp only [install_single, hni, hidx]
  rw [hpair]
  simp

theorem install_single_fail_step (fm : String → Option String)
    (index : PkgIndex) (fuel : Nat) (name : String) (info : PkgInfo) (st : St)
    (hni : hasKey st.installed_packages name = false)
    (hidx : getVal index name = some info)
    (hfm : fm name = none) :
    install_single fm index (fuel + 1) name st =
      some { st with fs := if hasKey st.fs name then st.fs
                           else updAssoc st.fs name [] } := by
  simp only [install_single, hni, hidx,
    download_package_fail fm name info st hfm]
  simp

/-! Key-set monotonicity of the install operations. -/

/-- Every key of `m` is a key of `m'`. -/
def keys_mono (m m' : Installed) : Prop :=
  ∀ k, hasKey m k = true → hasKey m' k = true

theorem keys_mono_refl (m : Installed) : keys_mono m m := fun _ h => h

theorem keys_mono_trans {a b c : Installed} (h1 : keys_mono a b)
    (h2 : keys_mono b c) : keys_mono a c := fun k h => h2 k (h1 k h)

theorem keys_mono_updAssoc (m : Installed) (k : String) (v : InstalledEntry) :
    keys_mono m (updAssoc m k v) := by
  intro k' h
  by_cases hk : k' = k
  · subst hk
    exact hasKey_updAssoc_self m k' v
  · unfold hasKey at h ⊢
    rw [getVal_updAssoc_ne m k k' v hk]
    exact h

theorem download_package_mono (fm : String → Option String) (name : String)
    (info : PkgInfo) (st : St) :
    keys_mono st.installed_packages
      (download_package fm name info st).2.installed_packages := by
  cases hfm : fm name with
  | none =>
      rw [download_package_fail fm name info st hfm]
      exact keys_mono_refl _
  | some c =>
      rw [download_package_success fm name info st c hfm]
      exact keys_mono_updAssoc _ _ _

theorem install_mono_aux (fm : String → Option String) (index : PkgIndex) :
    ∀ fuel : Nat,
      (∀ name st st', install_single fm index fuel name st = some st' →
          keys_mono st.installed_packages st'.installed_packages) ∧
      (∀ deps st st', install_deps fm index fuel deps st = some st' →
          keys_mono st.installed_packages st'.installed_packages) := by
  intro fuel
  induction fuel with
  | zero =>
      constructor
      · intro name st st' h
        simp [install_single] at h
      · intro deps st st' h
        cases deps with
        | nil =>
            simp only [install_deps, Option.some.injEq] at h
            subst h
            exact keys_mono_refl _
        | cons d rest => simp [install_deps] at h
  | succ f ih =>
      obtain ⟨ihS, ihD⟩ := ih
      constructor
      · intro name st st' h
        simp only [install_single] at h
        by_cases hik : hasKey st.installed_packages name = true
        · rw [if_pos hik] at h
          simp only [Option.some.injEq] at h
          subst h
          exact keys_mono_refl _
        · rw [if_neg hik] at h
          cases hidx : getVal index name with
          | none =>
              simp only [hidx, Option.some.injEq] at h
              subst h
              exact keys_mono_refl _
          | some info =>
              simp only [hidx] at h
              have hmono := download_package_mono fm name info st
              rcases hdp : download_package fm name info st with ⟨b, st1⟩
              rw [hdp] at h hmono
              cases b with
              | false =>
                  simp only [Option.some.injEq] at h
                  subst h
                  exact hmono
              | true =>
                  exact keys_mono_trans hmono (ihD _ _ _ h)
      · intro deps st st' h
        cases deps with
        | nil =>
            simp only [install_deps, Option.some.injEq] at h
            subst h
            exact keys_mono_refl _
        | cons d rest =>
            simp only [install_deps] at h
            by_cases hik : hasKey st.installed_packages d = true
            · rw [if_pos hik] at h
              exact ihD _ _ _ h
            · rw [if_neg hik] at h
              cases his : install_single fm index f d st with
              | none =>
                  rw [his] at h
                  exact Option.noConfusion h
              | some st1 =>
                  rw [his] at h
                  exact keys_mono_trans (ihS _ _ _ his) (ihD _ _ _ h)

theorem install_loop_mono (fm : String → Option String) (index : PkgIndex)
    (fuel : Nat) :
    ∀ names st st', install_loop fm index fuel names st = some st' →
      keys_mono st.installed_packages st'.installed_packages := by
  intro names
  induction names with
  | nil =>
      intro st st' h
      simp only [install_loop, Option.some.injEq] at h
      subst h
      exact keys_mono_refl _
  | cons n rest ih =>
      intro st st' h
      simp only [install_loop] at h
      cases his : install_single fm index fuel n st with
      | none =>
          rw [his] at h
          exact Option.noConfusion h
      | some st1 =>
          rw [his] at h
          exact keys_mono_trans ((install_mono_aux fm index fuel).1 _ _ _ his)
            (ih _ _ h)

theorem install_mono (fm : String → Option String) (net : Option PkgIndex)
    (fuel : Nat) (names : List String) (st st' : St)
    (h : install fm net fuel names st = some st') :
    keys_mono st.installed_packages st'.installed_packages := by
  have hf := (fetch_package_index_fields net st).1
  simp only [install] at h
  by_cases he : (fetch_package_index net st).1.isEmpty = true
  · rw [if_pos he] at h
    simp only [Option.some.injEq] at h
    subst h
    intro k hk
    rw [hf]
    exact hk
  · rw [if_neg he] at h
    have := install_loop_mono fm (fetch_package_index net st).1 fuel names _ _ h
    intro k hk
    apply this
    rw [hf]
    exact hk

/-! Claim theorems. -/

/-- C1 (corrected): the index fetch is cache-first, not network-first.
If the cache file exists and parses, its contents are returned unchanged,
with no network access and no cache write; if it exists but does not
parse, the warning branch returns the empty mapping; only when the cache
file is absent does the operation go to the network, writing the fetched
index to the cache file on success, and returning the empty mapping with
a warning on failure.  The function is total, so no exception escapes
this boundary. -/
theorem claim1_cache_first_fetch (net : Option PkgIndex) (st : St) :
    (∀ idx, st.cache_file = some (some idx) →
        fetch_package_index net st = (idx, st, false)) ∧
    (st.cache_file = some none →
        fetch_package_index net st = ([], st, true)) ∧
    (∀ data, st.cache_file = none → net = some data →
        fetch_package_index net st =
          (data, { st with cache_file := some (some data) }, false)) ∧
    (st.cache_file = none → net = none →
        fetch_package_index net st = ([], st, true)) := by
  refine ⟨?_, ?_, ?_, ?_⟩
  · intro idx hc
    simp [fetch_package_index, fetch_index_body, hc]
  · intro hc
    simp [fetch_package_index, fetch_index_body, hc]
  · intro data hc hn
    simp [fetch_package_index, fetch_index_body, hc, hn]
  · intro hc hn
    simp [fetch_package_index, fetch_index_body, hc, hn]

/-- C1 counterexample: with a cache file present (parsing to `idx_cached`)
and the network serving the different index `idx_remote`, the fetch
returns the cached mapping, not the network's, and does not overwrite the
cache file — refuting "first attempts a network retrieval ... on success
it overwrites the local cache file with the retrieved index and returns
the parsed mapping". -/
theorem claim1_counterexample :
    (fetch_package_index (some idx_remote) st_cached).1 = idx_cached ∧
    (fetch_package_index (some idx_remote) st_cached).1 ≠ idx_remote ∧
    (fetch_package_index (some idx_remote) st_cached).2.1.cache_file ≠
      some (some idx_remote) := by
  refine ⟨rfl, ?_, ?_⟩ <;> decide

/-- Witness for C1: the cache-hit case of the amended theorem applied to
a concrete state. -/
theorem claim1_witness :
    fetch_package_index (some idx_remote) st_cached =
      (idx_cached, st_cached, false) :=
  (claim1_cache_first_fetch (some idx_remote) st_cached).1 idx_cached rfl

/-- C2 (corrected): when the required artifact fetch for a package fails,
`download_package` returns `False` without raising and leaves
`installed_packages` and the persisted config untouched — but, contrary
to the original claim, the package directory was already created before
the fetch (`mkdir(exist_ok=True)` precedes the download), so an empty or
stale directory for that name remains on disk.  In the multi-name request
`[X, Y]` with `X` failing and `Y` succeeding, the final state has `Y`
installed and `X` absent from `installed_packages`, with an empty `X`
directory left behind. -/
theorem claim2_failed_fetch_isolated :
    (∀ (fm : String → Option String) (name : String) (info : PkgInfo)
        (st : St), fm name = none →
        (download_package fm name info st).1 = false ∧
        (download_package fm name info st).2.installed_packages =
          st.installed_packages ∧
        (download_package fm name info st).2.config_file = st.config_file) ∧
    (install fm_failX (some idxXY) 5 ["X", "Y"] st_empty).map
        (fun s => hasKey s.installed_packages "Y") = some true ∧
    (install fm_failX (some idxXY) 5 ["X", "Y"] st_empty).map
        (fun s => hasKey s.installed_packages "X") = some false ∧
    (install fm_failX (some idxXY) 5 ["X", "Y"] st_empty).map
        (fun s => getVal s.fs "X") = some (some []) := by
  refine ⟨?_, ?_, ?_, ?_⟩
  · intro fm name info st h
    rw [download_package_fail fm name info st h]
    exact ⟨rfl, rfl, rfl⟩
  · decide
  · decide
  · decide

/-- C2 counterexample: a failed fetch of `X` starting from the empty state
leaves a partially-written (here empty) `X` directory on disk — refuting
"leaves no partially-written package directory for that name on disk". -/
theorem claim2_counterexample :
    (download_package fm_fail "X" infoNone st_empty).1 = false ∧
    hasKey (download_package fm_fail "X" infoNone st_empty).2.fs "X" = true ∧
    hasKey st_empty.fs "X" = false ∧
    (download_package fm_fail "X" infoNone st_empty).2.installed_packages =
      st_empty.installed_packages := by
  decide

/-- Witness for C2: the failure clause applied to a concrete state. -/
theorem claim2_witness :
    (download_package fm_fail "A" infoNone st_oneA).1 = false ∧
    (download_package fm_fail "A" infoNone st_oneA).2.installed_packages =
      st_oneA.installed_packages ∧
    (download_package fm_fail "A" infoNone st_oneA).2.config_file =
      st_oneA.config_file :=
  claim2_failed_fetch_isolated.1 fm_fail "A" infoNone st_oneA rfl

/-- C3 (confirmed): requesting installation of an already-installed name
is a no-op — `_install_single` returns the state unchanged
(`installed_packages`, packages directory, config and cache files all
identical), and the result is the same for every artifact fetcher, so no
fetch is performed. -/
theorem claim3_already_installed_noop (fm : String → Option String)
    (index : PkgIndex) (fuel : Nat) (name : String) (st : St)
    (h : hasKey st.installed_packages name = true) :
    install_single fm index (fuel + 1) name st = some st := by
  simp [install_single, h]

/-- Witness for C3: a state with `A` installed, an always-failing
fetcher. -/
theorem claim3_witness :
    install_single fm_fail idxAB 1 "A" st_oneA = some st_oneA :=
  claim3_already_installed_noop fm_fail idxAB 0 "A" st_oneA (by decide)

/-- An empty dependency list ends the walk at the current state, whatever
fuel remains. -/
theorem install_deps_nil (fm : String → Option String) (index : PkgIndex)
    (fuel : Nat) (st : St) : install_deps fm index fuel [] st = some st := by
  cases fuel <;> simp [install_deps]

/-- C4 (confirmed): with `A` declaring dependency list `[B]`, `B`
declaring `[]`, neither installed and both artifact fetches succeeding,
installing `A` installs `B` as well — both names are keys of
`installed_packages` afterwards.  The walk is depth-first in declared
order on the same index object (`install_deps` hands the unchanged
`index` argument back to `install_single`), and the second conjunct shows
it recurses only into dependencies not already installed. -/
theorem claim4_dependency_closure (fm : String → Option String)
    (index : PkgIndex) (fuel : Nat) (A B : String) (infoA infoB : PkgInfo)
    (st : St) (cA cB : String)
    (hAB : A ≠ B)
    (hiA : getVal index A = some infoA)
    (hdA : infoA.dependencies = [B])
    (hiB : getVal index B = some infoB)
    (hdB : infoB.dependencies = [])
    (hnA : hasKey st.installed_packages A = false)
    (hnB : hasKey st.installed_packages B = false)
    (hfA : fm A = some cA)
    (hfB : fm B = some cB) :
    (install_single fm index (fuel + 3) A st).map
        (fun s => hasKey s.installed_packages A &&
          hasKey s.installed_packages B) = some true ∧
    (∀ (f : Nat) (dep : String) (rest : List String) (st'' : St),
        hasKey st''.installed_packages dep = true →
        install_deps fm index (f + 1) (dep :: rest) st'' =
          install_deps fm index f rest st'') := by
  constructor
  · have hfieldsA := download_success_fields fm A infoA st cA hfA
    have h1 : install_single fm index (fuel + 3) A st
        = install_deps fm index (fuel + 2) infoA.dependencies
            (download_package fm A infoA st).2 := by
      rw [show fuel + 3 = (fuel + 2) + 1 from rfl]
      exact install_single_success_step fm index (fuel + 2) A infoA st cA
        hnA hiA hfA
    have hBnotA : hasKey
        (download_package fm A infoA st).2.installed_packages B = false := by
      rw [hfieldsA.1]
      show (getVal (updAssoc st.installed_packages A (github_entry A infoA))
        B).isSome = false
      rw [getVal_updAssoc_ne st.installed_packages A B (github_entry A infoA)
        (Ne.symm hAB)]
      exact hnB
    have hfieldsB := download_success_fields fm B infoB
      (download_package fm A infoA st).2 cB hfB
    have h3 : install_single fm index (fuel + 1) B
        (download_package fm A infoA st).2
        = some (download_package fm B infoB
            (download_package fm A infoA st).2).2 := by
      rw [install_single_success_step fm index fuel B infoB
        (download_package fm A infoA st).2 cB hBnotA hiB hfB, hdB]
      exact install_deps_nil fm index fuel _
    have h2 : install_deps fm index (fuel + 2) [B]
        (download_package fm A infoA st).2
        = some (download_package fm B infoB
            (download_package fm A infoA st).2).2 := by
      rw [show fuel + 2 = (fuel + 1) + 1 from rfl]
      simp only [install_deps, hBnotA, Bool.false_eq_true, if_false, h3]
    have hA' : hasKey (download_package fm B infoB
        (download_package fm A infoA st).2).2.installed_packages A = true := by
      rw [hfieldsB.1, hfieldsA.1]
      show (getVal (updAssoc
        (updAssoc st.installed_packages A (github_entry A infoA)) B
        (github_entry B infoB)) A).isSome = true
      rw [getVal_updAssoc_ne _ B A _ hAB, getVal_updAssoc_self]
      rfl
    have hB' : hasKey (download_package fm B infoB
        (download_package fm A infoA st).2).2.installed_packages B = true := by
      rw [hfieldsB.1]
      exact hasKey_updAssoc_self _ _ _
    rw [h1, hdA, h2]
    simp [hA', hB']
  · intro f dep rest st'' h
    simp [install_deps, h]

/-- Witness for C4: the concrete two-package index `idxAB` from the empty
state, every fetch succeeding. -/
theorem claim4_witness :
    (install_single fm_ok idxAB 3 "A" st_empty).map
        (fun s => hasKey s.installed_packages "A" &&
          hasKey s.installed_packages "B") = some true :=
  (claim4_dependency_closure fm_ok idxAB 0 "A" "B" infoDepB infoNone st_empty
    "content" "content" (by decide) (by decide) rfl (by decide) rfl
    (by decide) (by decide) rfl rfl).1

/-- C5 (confirmed): a name absent from the supplied index leaves the
whole state — in particular `installed_packages` — unchanged, and the
result is independent of the artifact fetcher, so nothing is fetched.
(The code also prints the available index keys as a hint, `initpkg.py`
line 205; terminal output is outside the state model.) -/
theorem claim5_not_found_noop (fm : String → Option String)
    (index : PkgIndex) (fuel : Nat) (name : String) (st : St)
    (h : getVal index name = none) :
    install_single fm index (fuel + 1) name st = some st := by
  by_cases hik : hasKey st.installed_packages name = true
  · simp [install_single, hik]
  · simp [install_single, hik, h]

/-- Witness for C5: requesting `Z`, absent from the non-empty index
`idxAB`. -/
theorem claim5_witness :
    install_single fm_ok idxAB 1 "Z" st_empty = some st_empty :=
  claim5_not_found_noop fm_ok idxAB 0 "Z" st_empty (by decide)

/-- C6 (confirmed): `load_config` is total, so no error reaches the
caller; when the state file is absent or does not parse it yields the
default state (built-in repository URL, empty installed map), and when
the file parses to a full persisted state it returns exactly that state
(a file missing one of the keys keeps the default for that key, per
`dict.update`). -/
theorem claim6_load_config_fallback :
    (∀ r i, load_config (StateFile.parsed (some r) (some i)) = (r, i)) ∧
    load_config StateFile.absent = (GITHUB_REPO, []) ∧
    load_config StateFile.unparsable = (GITHUB_REPO, []) :=
  ⟨fun _ _ => rfl, rfl, rfl⟩

/-- C7 (confirmed): uninstalling an installed name removes its on-disk
directory and its `installed_packages` entry and persists the new config;
uninstalling an unknown name is a no-op that changes nothing and raises
nothing. -/
theorem claim7_uninstall_spec (name : String) (st : St) :
    (hasKey st.installed_packages name = true →
        uninstall name st =
          save_config { st with
            fs := delAssoc st.fs name
            installed_packages := delAssoc st.installed_packages name } ∧
        hasKey (uninstall name st).installed_packages name = false ∧
        hasKey (uninstall name st).fs name = false ∧
        (uninstall name st).config_file =
          some (st.repository, delAssoc st.installed_packages name)) ∧
    (hasKey st.installed_packages name = false → uninstall name st = st) := by
  constructor
  · intro h
    have hu : uninstall name st =
        save_config { st with
          fs := delAssoc st.fs name
          installed_packages := delAssoc st.installed_packages name } := by
      unfold uninstall
      rw [h]
      simp
    refine ⟨hu, ?_, ?_, ?_⟩
    · rw [hu]
      simpa [save_config] using hasKey_delAssoc_self st.installed_packages name
    · rw [hu]
      simpa [save_config] using hasKey_delAssoc_self st.fs name
    · rw [hu]
      simp [save_config]
  · intro h
    unfold uninstall
    rw [h]
    simp

/-- Witness for C7: after uninstalling the installed `A`, no `A` entry
remains. -/
theorem claim7_witness :
    hasKey (uninstall "A" st_oneA).installed_packages "A" = false :=
  ((claim7_uninstall_spec "A" st_oneA).1 (by decide)).2.1

/-- C8 (corrected): on a successful artifact fetch the installer writes
`main.init` and `package.json` into the package's directory, records an
entry with `source = github` and saves the persistent state immediately
(`save_config` is applied before `download_package` returns, hence before
any further package is processed) — but, contrary to the original claim,
the directory is not fresh: `mkdir(exist_ok=True)` keeps a stale
directory of the same name, so its files other than `main.init` and
`package.json` survive (merge, not replace). -/
theorem claim8_success_writes_and_records (fm : String → Option String)
    (name : String) (info : PkgInfo) (st : St) (content : String)
    (h : fm name = some content) :
    download_package fm name info st =
      (true, save_config { st with
        fs := updAssoc st.fs name
          (updAssoc (updAssoc ((getVal st.fs name).getD []) "main.init" content)
            "package.json" (package_json_content name info)),
        installed_packages :=
          updAssoc st.installed_packages name (github_entry name info) }) :=
  download_package_success fm name info st content h

/-- C8 counterexample: installing `A` over a stale `A` directory holding
`stale.txt` succeeds yet keeps `stale.txt` — refuting "writes the
package's files to a fresh directory named after the package, replacing
any stale leftover directory of the same name (no merge with pre-existing
contents)". -/
theorem claim8_counterexample :
    (download_package fm_ok "A" infoNone st_stale).1 = true ∧
    getVal ((getVal (download_package fm_ok "A" infoNone st_stale).2.fs
        "A").getD []) "stale.txt" = some "old" := by
  decide

/-- Witness for C8: the amended success equation at a concrete state. -/
theorem claim8_witness :
    download_package fm_ok "A" infoNone st_stale =
      (true, save_config { st_stale with
        fs := updAssoc st_stale.fs "A"
          (updAssoc (updAssoc ((getVal st_stale.fs "A").getD []) "main.init"
            "content") "package.json" (package_json_content "A" infoNone)),
        installed_packages :=
          updAssoc st_stale.installed_packages "A"
            (github_entry "A" infoNone) }) :=
  claim8_success_writes_and_records fm_ok "A" infoNone st_stale "content" rfl

/-- C9 (confirmed): when the fetched index is empty, `install` returns
before its per-name loop: the result is exactly the post-fetch state, for
every requested name list and every artifact fetcher, and both
`installed_packages` and the packages directory are unchanged. -/
theorem claim9_empty_index_aborts (fm : String → Option String)
    (net : Option PkgIndex) (fuel : Nat) (names : List String) (st : St)
    (h : (fetch_package_index net st).1 = []) :
    install fm net fuel names st = some (fetch_package_index net st).2.1 ∧
    (fetch_package_index net st).2.1.installed_packages =
      st.installed_packages ∧
    (fetch_package_index net st).2.1.fs = st.fs := by
  refine ⟨?_, (fetch_package_index_fields net st).1,
    (fetch_package_index_fields net st).2.1⟩
  simp only [install, h]
  simp

/-- Witness for C9: no cache and no network yield the empty index, and a
request for the otherwise-installable `A` is aborted. -/
theorem claim9_witness :
    install fm_ok none 3 ["A"] st_empty =
      some (fetch_package_index none st_empty).2.1 ∧
    (fetch_package_index none st_empty).2.1.installed_packages =
      st_empty.installed_packages ∧
    (fetch_package_index none st_empty).2.1.fs = st_empty.fs :=
  claim9_empty_index_aborts fm_ok none 3 ["A"] st_empty rfl

/-- C10 (confirmed): every install entry point only adds or replaces keys
of `installed_packages` — `_install_single`, its dependency loop, the
multi-name `install` and `install_local` all map the key set to a
superset of the old one — while `uninstall` removes no key other than the
one it names. -/
theorem claim10_install_never_removes :
    (∀ (fm : String → Option String) (index : PkgIndex) (fuel : Nat)
        (name : String) (st st' : St),
        install_single fm index fuel name st = some st' →
        keys_mono st.installed_packages st'.installed_packages) ∧
    (∀ (fm : String → Option String) (index : PkgIndex) (fuel : Nat)
        (deps : List String) (st st' : St),
        install_deps fm index fuel deps st = some st' →
        keys_mono st.installed_packages st'.installed_packages) ∧
    (∀ (fm : String → Option String) (net : Option PkgIndex) (fuel : Nat)
        (names : List String) (st st' : St),
        install fm net fuel names st = some st' →
        keys_mono st.installed_packages st'.installed_packages) ∧
    (∀ (source_name : String) (files : Dir) (st : St),
        keys_mono st.installed_packages
          (install_local source_name files st).installed_packages) ∧
    (∀ (name : String) (st : St) (k : String), k ≠ name →
        hasKey st.installed_packages k = true →
        hasKey (uninstall name st).installed_packages k = true) := by
  refine ⟨?_, ?_, ?_, ?_, ?_⟩
  · intro fm index fuel name st st' h
    exact (install_mono_aux fm index fuel).1 _ _ _ h
  · intro fm index fuel deps st st' h
    exact (install_mono_aux fm index fuel).2 _ _ _ h
  · intro fm net fuel names st st' h
    exact install_mono fm net fuel names st st' h
  · intro source_name files st
    unfold install_local
    by_cases hm : hasKey files "main.init" = false
    · rw [if_pos hm]
      exact keys_mono_refl _
    · rw [if_neg hm]
      exact keys_mono_updAssoc _ _ _
  · intro name st k hk hkey
    unfold uninstall
    by_cases hni : hasKey st.installed_packages name = false
    · rw [if_pos hni]
      exact hkey
    · rw [if_neg hni]
      show (getVal (delAssoc st.installed_packages name) k).isSome = true
      rw [getVal_delAssoc_ne st.installed_packages name k hk]
      exact hkey

/-- Witness for C10: a local install on top of a state with `A` installed
keeps the `A` key. -/
theorem claim10_witness :
    hasKey (install_local "P" [("main.init", "c")] st_oneA).installed_packages
      "A" = true :=
  claim10_install_never_removes.2.2.2.1 "P" [("main.init", "c")] st_oneA "A"
    (by decide)

end Initpkg
